import Mathlib

/-!
Shallow embedding of the two dataset generators of this repository:
`scripts/generate_crewscheduling_data.py` and
`scripts/generate_setcover_data.py`.

Python's global `random` module is modelled by an explicit oracle stream
`Rng`: an infinite stream of natural numbers together with a position.
Every primitive draw (`random.randint`, `random.choice`, `random.sample`,
`random.uniform`) consumes entries of the stream in program order.  Runtime
errors of the Python code (`IndexError` from `random.choice` on an empty
sequence, `ZeroDivisionError` in the budget computation) are modelled by
`Option`.  The source has exactly one run-to-run input besides the seeded
stream: the coverage repair iterates `set(universe) - covered`, a Python
set of strings whose enumeration order is fixed by the interpreter's
per-process hash salt, not by `random.seed`; that order is exposed as the
explicit `enumerate` parameter of `ensure_coverage_set_order`.
-/

/-- The random oracle: an infinite stream of naturals and a read position. -/
structure Rng where
  f : Nat → Nat
  pos : Nat

/-- Pull the next raw value off the oracle stream. -/
def Rng.next (r : Rng) : Nat × Rng :=
  (r.f r.pos, { r with pos := r.pos + 1 })

/-- Model of `random.randint(lo, hi)`: a value in `[lo, hi]` (inclusive). -/
def randint (lo hi : Nat) (r : Rng) : Nat × Rng :=
  let (n, r') := r.next
  (lo + n % (hi - lo + 1), r')

/-- Model of `random.choice(xs)`: an element of `xs`, or `none` when `xs` is
empty (Python raises `IndexError` there). -/
def rchoice {α : Type} (xs : List α) (r : Rng) : Option α × Rng :=
  let (n, r') := r.next
  (xs.get? (n % xs.length), r')

/-- Model of `random.random()`: a rational in `[0, 1]`. -/
def unitRand (n : Nat) : ℚ := ((n % 1001 : Nat) : ℚ) / 1000

/-- Model of `random.uniform(a, b) = a + (b-a)*random()`. -/
def runiform (a b : ℚ) (r : Rng) : ℚ × Rng :=
  let (n, r') := r.next
  (a + (b - a) * unitRand n, r')

/-! ## Crew-scheduling generator (`generate_crewscheduling_data.py`) -/

/-- Flight generation parameter `MIN_FLIGHT_DURATION = 60`. -/
def MIN_FLIGHT_DURATION : Nat := 60

/-- Flight generation parameter `MAX_FLIGHT_DURATION = 600`. -/
def MAX_FLIGHT_DURATION : Nat := 600

/-- Flight generation parameter `TIME_HORIZON = 10000`. -/
def TIME_HORIZON : Nat := 10000

/-- A flight record, as built by `generate_flight_schedule`. -/
structure Flight where
  departure_airport : String
  arrival_airport : String
  departure_time : Nat
  arrival_time : Nat
deriving DecidableEq, Repr

/-- The fixed list `airport_codes` of `generate_airports`. -/
def airport_codes : List String :=
  ["JFK", "LAX", "ORD", "DFW", "DEN", "SFO", "SEA", "LAS", "MCO", "EWR",
   "CLT", "PHX", "IAH", "MIA", "BOS", "MSP", "FLL", "DTW", "PHL", "LGA",
   "BWI", "SLC", "SAN", "DCA", "IAD", "MDW", "TPA", "PDX", "STL", "HNL",
   "AUS", "BNA", "OAK", "MSY", "RDU", "SJC", "SMF", "SNA", "PIT", "CVG",
   "CMH", "IND", "MCI", "BDL", "BUF", "OMA", "ONT", "ANC", "ABQ", "TUS"]

/-- Python's `f"{n:02d}"`: decimal rendering zero-padded to width 2. -/
def pad2 (n : Nat) : String :=
  if n < 10 then "0" ++ toString n else toString n

/-- `generate_airports(num_airports)`: the first `num_airports` codes, using
the fixed list and then synthetic `AP{i+1:02d}` codes. -/
def generate_airports (num_airports : Nat) : List String :=
  (List.range num_airports).map fun i =>
    match airport_codes.get? i with
    | some code => code
    | none => "AP" ++ pad2 (i + 1)

/-- The flight-sampling loop body of `generate_flight_schedule`, before the
final sort: one iteration per requested flight, consuming the oracle in the
order `choice` (origin), `choice` (destination among the other airports),
`randint` (departure time), `randint` (duration). -/
def sampleFlights (airports : List String) : Nat → Rng → Option (List Flight) × Rng
  | 0, r => (some [], r)
  | Nat.succ n, r =>
    let (dep?, r1) := rchoice airports r
    match dep? with
    | none => (none, r1)
    | some dep =>
      let (arr?, r2) := rchoice (airports.filter (fun a => a != dep)) r1
      match arr? with
      | none => (none, r2)
      | some arr =>
        let (depTime, r3) := randint 0 (TIME_HORIZON - MAX_FLIGHT_DURATION) r2
        let (dur, r4) := randint MIN_FLIGHT_DURATION MAX_FLIGHT_DURATION r3
        match sampleFlights airports n r4 with
        | (some rest, r5) =>
          (some ({ departure_airport := dep, arrival_airport := arr,
                   departure_time := depTime, arrival_time := depTime + dur } :: rest), r5)
        | (none, r5) => (none, r5)

/-- The sort key order of `flights.sort(key=lambda f: (f["departure_time"],
f["departure_airport"]))`: lexicographic on (time, origin). -/
def flightLE (a b : Flight) : Bool :=
  a.departure_time < b.departure_time ||
    (a.departure_time == b.departure_time &&
      !(b.departure_airport < a.departure_airport))

/-- `generate_flight_schedule(airports, num_flights)`: sample then stable-sort
by `(departure_time, departure_airport)`. -/
def generate_flight_schedule (airports : List String) (num_flights : Nat)
    (r : Rng) : Option (List Flight) × Rng :=
  match sampleFlights airports num_flights r with
  | (some fs, r') => (some (fs.mergeSort flightLE), r')
  | (none, r') => (none, r')

/-- The repair loop of `ensure_connectivity`: iterate the airports in order;
for each one absent from the precomputed departure set, append one synthetic
flight from it.  `airports` is the full list (destinations are drawn from
it), `hasDep` the departure set computed before the loop started. -/
def connectGo (airports hasDep : List String) :
    List String → List Flight → Rng → Option (List Flight) × Rng
  | [], acc, r => (some acc, r)
  | a :: rest, acc, r =>
    if a ∈ hasDep then connectGo airports hasDep rest acc r
    else
      let (other?, r1) := rchoice (airports.filter (fun b => b != a)) r
      match other? with
      | none => (none, r1)
      | some other =>
        let (depTime, r2) := randint 0 (TIME_HORIZON - MAX_FLIGHT_DURATION) r1
        let (dur, r3) := randint MIN_FLIGHT_DURATION MAX_FLIGHT_DURATION r2
        connectGo airports hasDep rest
          (acc ++ [{ departure_airport := a, arrival_airport := other,
                     departure_time := depTime, arrival_time := depTime + dur }]) r3

/-- `ensure_connectivity(airports, flights)`: compute the set of airports with
a departure, then append one flight for every airport without one. -/
def ensure_connectivity (airports : List String) (flights : List Flight)
    (r : Rng) : Option (List Flight) × Rng :=
  let hasDep := flights.map (fun f => f.departure_airport)
  connectGo airports hasDep airports flights r

/-- The in-memory dataset serialized by the crew-scheduling
`generate_test_file`. -/
structure CrewDataset where
  airports : List String
  flights : List Flight
deriving DecidableEq, Repr

/-- The dataset-building part of the crew-scheduling `generate_test_file`
(the file write is pure serialization of this value). -/
def crew_generate_test_file (num_airports num_flights : Nat) (r : Rng) :
    Option CrewDataset × Rng :=
  let airports := generate_airports num_airports
  match generate_flight_schedule airports num_flights r with
  | (none, r1) => (none, r1)
  | (some flights, r1) =>
    match ensure_connectivity airports flights r1 with
    | (none, r2) => (none, r2)
    | (some flights', r2) => (some { airports := airports, flights := flights' }, r2)

/-- The fixed `TEST_CONFIGS` list of `generate_crewscheduling_data.py`. -/
def CREW_TEST_CONFIGS : List (Nat × Nat) :=
  [(3, 10), (5, 20), (5, 50), (10, 100), (10, 200), (15, 500), (20, 1000), (25, 2000)]

/-- The batch loop of the crew-scheduling `main`: iterate the configurations
in list order, threading the single seeded random stream through them. -/
def crew_run_batch (r : Rng) : List (Option CrewDataset) :=
  (CREW_TEST_CONFIGS.foldl
    (fun st cfg =>
      let (d, r') := crew_generate_test_file cfg.1 cfg.2 st.2
      (st.1 ++ [d], r'))
    (([] : List (Option CrewDataset)), r)).1

/-- A fixed concrete oracle used in witnesses. -/
def rng0 : Rng := { f := fun _ => 0, pos := 0 }

/-! ## Set-cover generator (`generate_setcover_data.py`) -/

/-- Food generation parameter `MIN_CALORIES = 2000`. -/
def MIN_CALORIES : Nat := 2000

/-- Food generation parameter `MAX_CALORIES = 2500`. -/
def MAX_CALORIES : Nat := 2500

/-- Food generation parameter `MIN_NUTRIENTS_PER_FOOD = 3`. -/
def MIN_NUTRIENTS_PER_FOOD : Nat := 3

/-- Food generation parameter `MAX_NUTRIENT_UPPER_LIMIT = 10`. -/
def MAX_NUTRIENT_UPPER_LIMIT : Nat := 10

/-- The fixed `prefixes` list of `generate_universe` (10 entries). -/
def nutrient_prefixes : List String :=
  ["Vitamin", "Mineral", "Protein", "Fiber", "Omega",
   "Amino", "Enzyme", "Antioxidant", "Electrolyte", "Nutrient"]

/-- The name built for position `i` of the universe:
`prefix = prefixes[i % 10]`, `suffix = chr(ord('A') + i // 10)` when
`i >= 10` (else empty), `index = i % 10 + 1`. -/
def nutrientName (i : Nat) : String :=
  let pre := (nutrient_prefixes.get? (i % nutrient_prefixes.length)).getD ""
  let suffix := if nutrient_prefixes.length ≤ i then
      String.singleton (Char.ofNat (65 + i / nutrient_prefixes.length)) else ""
  let index := i % nutrient_prefixes.length + 1
  pre ++ suffix ++ toString index

/-- `generate_universe(num_nutrients)`: the deterministic nutrient names for
positions `0 .. num_nutrients - 1`. -/
def generate_universe (num_nutrients : Nat) : List String :=
  (List.range num_nutrients).map nutrientName

/-- A food record, as built by `generate_food_item`. -/
structure Food where
  name : String
  calories : Nat
  nutrients : List String
deriving DecidableEq, Repr

/-- Model of `random.sample(xs, k)`: `k` draws without replacement, each draw
removing the chosen position from the remaining pool.  The `none` branch
(empty pool with draws left) is unreachable in this program because the
callers clamp `k` to `xs.length`; Python would raise `ValueError` there. -/
def rsample {α : Type} : Nat → List α → Rng → List α × Rng
  | 0, _, r => ([], r)
  | Nat.succ k, xs, r =>
    let (n, r1) := r.next
    match xs.get? (n % xs.length) with
    | none => ([], r1)
    | some x =>
      let (rest, r2) := rsample k (xs.eraseIdx (n % xs.length)) r1
      (x :: rest, r2)

/-- The fixed `food_types` list of `generate_food_item`. -/
def food_types : List String :=
  ["Apple", "Banana", "Carrot", "Spinach", "Chicken", "Beef", "Salmon",
   "Rice", "Pasta", "Bread", "Milk", "Cheese", "Yogurt", "Eggs", "Tofu",
   "Broccoli", "Tomato", "Potato", "Orange", "Grape", "Lettuce", "Onion",
   "Garlic", "Pepper", "Corn", "Beans", "Lentils", "Almonds", "Walnuts"]

/-- `generate_food_item(food_id, universe, min_nutrients, max_nutrients)`:
draw calories, a nutrient count clamped to the universe size, a sample of
that many distinct nutrients, and a cosmetic name. -/
def generate_food_item (food_id : Nat) (univ : List String)
    (min_nutrients max_nutrients : Nat) (r : Rng) : Option Food × Rng :=
  let (calories, r1) := randint MIN_CALORIES MAX_CALORIES r
  let (num0, r2) := randint min_nutrients max_nutrients r1
  let num_nutrients := min num0 univ.length
  let (nutrients, r3) := rsample num_nutrients univ r2
  let (t?, r4) := rchoice food_types r3
  match t? with
  | none => (none, r4)
  | some t => (some { name := t ++ "_" ++ toString food_id,
                      calories := calories, nutrients := nutrients }, r4)

/-- Sum of the foods' calories, as a rational. -/
def totalCalories (food_items : List Food) : ℚ :=
  food_items.foldl (fun acc f => acc + (f.calories : ℚ)) 0

/-- `calculate_max_calories(food_items, universe)`: `total × uniform(0.4,0.6)`
versus the feasibility floor `(len(universe)//3 + 1) × (total/len(food_items))`,
take the max.  The `none` branch models Python's `ZeroDivisionError` on an
empty food list (raised after the uniform draw). -/
def calculate_max_calories (food_items : List Food) (univ : List String)
    (r : Rng) : Option ℚ × Rng :=
  let total := totalCalories food_items
  let (fraction, r') := runiform (2/5) (3/5) r
  let maxCal := total * fraction
  let min_foods_estimate : Nat := univ.length / 3 + 1
  if food_items.length = 0 then (none, r')
  else
    let avg_calories := total / (food_items.length : ℚ)
    let min_needed := (min_foods_estimate : ℚ) * avg_calories
    (some (max maxCal min_needed), r')

/-- Union (as a list with possible repeats, in fold order) of the foods'
nutrient lists: the `covered` accumulator of `ensure_coverage`. -/
def coveredNutrients (food_items : List Food) : List String :=
  food_items.foldl (fun acc f => acc ++ f.nutrients) []

/-- The repair loop of `ensure_coverage`: for each uncovered nutrient in
turn, append it to the nutrient list of one randomly chosen food. -/
def coverGo : List Food → List String → Rng → Option (List Food) × Rng
  | foods, [], r => (some foods, r)
  | foods, n :: rest, r =>
    let (k, r1) := r.next
    match foods.get? (k % foods.length) with
    | none => (none, r1)
    | some f =>
      coverGo (foods.set (k % foods.length)
        { f with nutrients := f.nutrients ++ [n] }) rest r1

/-- `ensure_coverage(food_items, universe)`: compute the covered union, then
append every uncovered universe nutrient to a random food.  The source
iterates `uncovered = set(universe) - covered` in the enumeration order of
a Python string set, which the per-process hash salt fixes; this definition
uses universe order, sound for order-insensitive properties, while
`ensure_coverage_set_order` below makes the enumeration order explicit. -/
def ensure_coverage (food_items : List Food) (univ : List String)
    (r : Rng) : Option (List Food) × Rng :=
  let covered := coveredNutrients food_items
  let uncovered := univ.filter (fun n => !(covered.contains n))
  coverGo food_items uncovered r

/-- The in-memory dataset serialized by the set-cover `generate_test_file`. -/
structure SetcoverDataset where
  univ : List String
  max_calories : ℚ
  foods : List Food
deriving DecidableEq, Repr

/-- The food-sampling loop of the set-cover `generate_test_file`:
`generate_food_item(i + 1, ...)` for `i` in `range(num_foods)`. -/
def sampleFoods (univ : List String) (min_nutrients max_nutrients : Nat) :
    Nat → Nat → Rng → Option (List Food) × Rng
  | _, 0, r => (some [], r)
  | i, Nat.succ k, r =>
    match generate_food_item (i + 1) univ min_nutrients max_nutrients r with
    | (none, r1) => (none, r1)
    | (some food, r1) =>
      match sampleFoods univ min_nutrients max_nutrients (i + 1) k r1 with
      | (some rest, r2) => (some (food :: rest), r2)
      | (none, r2) => (none, r2)

/-- The dataset-building part of the set-cover `generate_test_file`.
`max(MAX_NUTRIENT_UPPER_LIMIT, int(num_nutrients * 0.2))` is modelled as
`max 10 (num_nutrients / 5)` in exact arithmetic. -/
def setcover_generate_test_file (num_foods num_nutrients : Nat) (r : Rng) :
    Option SetcoverDataset × Rng :=
  let univ := generate_universe num_nutrients
  let min_nutrients := MIN_NUTRIENTS_PER_FOOD
  let max_nutrients := max MAX_NUTRIENT_UPPER_LIMIT (num_nutrients / 5)
  match sampleFoods univ min_nutrients max_nutrients 0 num_foods r with
  | (none, r1) => (none, r1)
  | (some food_items, r1) =>
    match ensure_coverage food_items univ r1 with
    | (none, r2) => (none, r2)
    | (some food_items', r2) =>
      match calculate_max_calories food_items' univ r2 with
      | (none, r3) => (none, r3)
      | (some mc, r3) =>
        (some { univ := univ, max_calories := mc, foods := food_items' }, r3)

/-- `ensure_coverage` with the set-enumeration order made explicit:
`enumerate` maps the uncovered nutrients (listed in universe order) to the
order in which the interpreter's hash salt enumerates the Python set; any
permutation of the uncovered nutrients is a possible enumeration, and the
identity is one of them. -/
def ensure_coverage_set_order (food_items : List Food) (univ : List String)
    (enumerate : List String → List String) (r : Rng) : Option (List Food) × Rng :=
  let covered := coveredNutrients food_items
  let uncovered := univ.filter (fun n => !(covered.contains n))
  coverGo food_items (enumerate uncovered) r

/-- The set-cover `generate_test_file` with the coverage repair's
set-enumeration order made explicit (identical to
`setcover_generate_test_file` except for threading `enumerate`). -/
def setcover_generate_test_file_set_order (num_foods num_nutrients : Nat)
    (enumerate : List String → List String) (r : Rng) :
    Option SetcoverDataset × Rng :=
  let univ := generate_universe num_nutrients
  let min_nutrients := MIN_NUTRIENTS_PER_FOOD
  let max_nutrients := max MAX_NUTRIENT_UPPER_LIMIT (num_nutrients / 5)
  match sampleFoods univ min_nutrients max_nutrients 0 num_foods r with
  | (none, r1) => (none, r1)
  | (some food_items, r1) =>
    match ensure_coverage_set_order food_items univ enumerate r1 with
    | (none, r2) => (none, r2)
    | (some food_items', r2) =>
      match calculate_max_calories food_items' univ r2 with
      | (none, r3) => (none, r3)
      | (some mc, r3) =>
        (some { univ := univ, max_calories := mc, foods := food_items' }, r3)

/-- The fixed `TEST_CONFIGS` list of `generate_setcover_data.py`. -/
def SETCOVER_TEST_CONFIGS : List (Nat × Nat) :=
  [(10, 5), (20, 10), (50, 15), (100, 20), (200, 30), (500, 50),
   (1000, 75), (2000, 100), (5000, 150), (10000, 200), (10000, 500), (50000, 500)]

/-- The batch loop of the set-cover `main`: iterate the configurations in
list order, threading the single seeded random stream through them. -/
def setcover_run_batch (r : Rng) : List (Option SetcoverDataset) :=
  (SETCOVER_TEST_CONFIGS.foldl
    (fun st cfg =>
      let (d, r') := setcover_generate_test_file cfg.1 cfg.2 st.2
      (st.1 ++ [d], r'))
    (([] : List (Option SetcoverDataset)), r)).1

/-- The temporal and no-self-loop invariants of a single flight record:
origin differs from destination, and the times come from a duration in
`[MIN_FLIGHT_DURATION, MAX_FLIGHT_DURATION]` that keeps the flight inside
the horizon. -/
def FlightOK (fl : Flight) : Prop :=
  fl.departure_airport ≠ fl.arrival_airport ∧
  ∃ d, MIN_FLIGHT_DURATION ≤ d ∧ d ≤ MAX_FLIGHT_DURATION ∧
    fl.arrival_time = fl.departure_time + d ∧
    fl.departure_time + d ≤ TIME_HORIZON

/-! ## Helper lemmas -/

theorem rchoice_mem {α : Type} {xs : List α} {r : Rng} {x : α} {r' : Rng}
    (h : rchoice xs r = (some x, r')) : x ∈ xs := by
  unfold rchoice Rng.next at h
  have h1 := congrArg Prod.fst h
  simp only at h1
  exact List.get?_mem h1

theorem rchoice_some {α : Type} (xs : List α) (r : Rng) (hne : xs ≠ []) :
    ∃ x r', rchoice xs r = (some x, r') := by
  have hlen : 0 < xs.length := List.length_pos.mpr hne
  have hlt : r.f r.pos % xs.length < xs.length := Nat.mod_lt _ hlen
  refine ⟨xs.get ⟨_, hlt⟩, { r with pos := r.pos + 1 }, ?_⟩
  show (xs.get? (r.f r.pos % xs.length), ({ r with pos := r.pos + 1 } : Rng)) = _
  rw [List.get?_eq_get hlt]

theorem randint_bounds (lo hi : Nat) (h : lo ≤ hi) (r : Rng) :
    lo ≤ (randint lo hi r).1 ∧ (randint lo hi r).1 ≤ hi := by
  unfold randint Rng.next
  refine ⟨Nat.le_add_right lo _, ?_⟩
  have hm : r.f r.pos % (hi - lo + 1) < hi - lo + 1 :=
    Nat.mod_lt _ (Nat.succ_pos _)
  simp only
  omega

/-! ## Claim theorems -/

/-- C1 (counterexample): the claim's naming rule prescribes the suffix
`chr('A' + k - 1)` for cycle index `k = i / 10 ≥ 1`, which would make the
11th entry of `build_universe(12)` the string `"VitaminA1"`; the code
instead computes `chr(ord('A') + i // 10)`, so the 11th entry is
`"VitaminB1"`. -/
theorem generate_universe_claim_cex :
    (generate_universe 12).get? 10 = some "VitaminB1" ∧
      ("VitaminB1" : String) ≠ "VitaminA1" :=
  ⟨rfl, by decide⟩

/-- C1 (amended): `build_universe` is deterministic and follows the code's
naming rule: entry `i` (0-based) is `prefixes[i % 10]`, then for `i ≥ 10`
the disambiguating letter `chr(ord('A') + i / 10)` (so the 11th entry is
`"VitaminB1"`), then the 1-based position-within-cycle index `i % 10 + 1`;
the first 10 entries carry no suffix letter. -/
theorem generate_universe_rule (n i : Nat) (h : i < n) :
    (generate_universe n).get? i =
      some ((nutrient_prefixes.get? (i % 10)).getD "" ++
        (if 10 ≤ i then String.singleton (Char.ofNat (65 + i / 10)) else "") ++
        toString (i % 10 + 1)) := by
  unfold generate_universe
  rw [List.get?_map, List.get?_range h]
  rfl

/-- C1 (witness): the amended rule instantiated at `n = 12`, `i = 10`. -/
theorem generate_universe_rule_witness :
    (generate_universe 12).get? 10 =
      some ((nutrient_prefixes.get? (10 % 10)).getD "" ++
        (if 10 ≤ 10 then String.singleton (Char.ofNat (65 + 10 / 10)) else "") ++
        toString (10 % 10 + 1)) :=
  generate_universe_rule 12 10 (by decide)

/-- C6 (code bug): run-to-run determinism fails in the code, although it is
the code's documented intent (`RANDOM_SEED = 42  # For reproducibility`).
The coverage repair iterates `set(universe) - covered`, a Python set of
strings whose enumeration order is fixed by the interpreter's per-process
hash salt, which `random.seed` does not control.  This theorem shows:
the order-explicit pipeline with the identity enumeration coincides with
the fixed-order embedding; reversal is an equally valid enumeration of any
set; and at the batch's first configuration `(10, 5)` there is a seed
stream (all zeros) under which every food samples the first three
nutrients, two nutrients need repair, and the two enumerations produce
different food tables — so two runs from the same seed need not emit
identical files. -/
theorem coverage_order_dependent :
    (setcover_generate_test_file_set_order 10 5 (fun l => l) rng0 =
      setcover_generate_test_file 10 5 rng0) ∧
    (∀ l : List String, (List.reverse l).Perm l) ∧
    ((setcover_generate_test_file_set_order 10 5 (fun l => l) rng0).1.map
        (fun d => d.foods)) ≠
      ((setcover_generate_test_file_set_order 10 5 List.reverse rng0).1.map
        (fun d => d.foods)) :=
  ⟨rfl, fun l => l.reverse_perm, by decide⟩

/-- C4 (counterexample): at the all-zero-scale configuration
`num_airports = 0, num_flights = 0` the flight generator raises nothing at
all: it completes and produces the empty dataset (the Python code writes a
header-only file), refuting the claim that every non-positive scale is
rejected with `InvalidInput` up front. -/
theorem no_input_validation_cex :
    (crew_generate_test_file 0 0 rng0).1 = some { airports := [], flights := [] } := by
  simp [crew_generate_test_file, generate_flight_schedule, sampleFlights,
        generate_airports, ensure_connectivity, connectGo, List.mergeSort_nil]

/-- C4 (amended): the generators perform no input validation.  A zero-scale
configuration either completes normally (zero airports with zero flights
yields an empty flight dataset; zero nutrients yields foods with empty
nutrient lists) or fails only once sampling reaches an empty choice pool
(modelled by `none`, Python's `IndexError`): one airport with one flight
requested, or zero foods with a non-empty universe.  No `InvalidInput`
error exists, and nothing is rejected before randomness is consumed. -/
theorem no_input_validation (r : Rng) :
    (crew_generate_test_file 0 0 r).1 = some { airports := [], flights := [] } ∧
    (setcover_generate_test_file 5 0 rng0).1.isSome = true ∧
    (crew_generate_test_file 1 1 r).1 = none ∧
    (setcover_generate_test_file 0 5 r).1 = none := by
  refine ⟨?_, rfl, ?_, ?_⟩
  · simp [crew_generate_test_file, generate_flight_schedule, sampleFlights,
          generate_airports, ensure_connectivity, connectGo, List.mergeSort_nil]
  · have hA : generate_airports 1 = ["JFK"] := rfl
    simp [crew_generate_test_file, generate_flight_schedule, sampleFlights, hA,
          rchoice, Rng.next, Nat.mod_one]
  · unfold setcover_generate_test_file
    simp [sampleFoods, ensure_coverage, coveredNutrients, coverGo]

theorem connectGo_append (airports hasDep : List String) :
    ∀ (rest : List String) (acc : List Flight) (r : Rng) (out : List Flight) (r' : Rng),
      connectGo airports hasDep rest acc r = (some out, r') → ∃ extra, out = acc ++ extra := by
  intro rest
  induction rest with
  | nil =>
    intro acc r out r' h
    simp only [connectGo, Prod.mk.injEq, Option.some.injEq] at h
    exact ⟨[], by rw [← h.1, List.append_nil]⟩
  | cons a rest ih =>
    intro acc r out r' h
    simp only [connectGo] at h
    by_cases ha : a ∈ hasDep
    · rw [if_pos ha] at h
      exact ih acc r out r' h
    · rw [if_neg ha] at h
      rcases hc : rchoice (airports.filter (fun b => b != a)) r with ⟨o, r1⟩
      rw [hc] at h
      cases o with
      | none => simp at h
      | some other =>
        rcases hd : randint 0 (TIME_HORIZON - MAX_FLIGHT_DURATION) r1 with ⟨depTime, r2⟩
        rw [hd] at h
        rcases he : randint MIN_FLIGHT_DURATION MAX_FLIGHT_DURATION r2 with ⟨dur, r3⟩
        rw [he] at h
        obtain ⟨extra, hout⟩ := ih _ _ _ _ h
        refine ⟨{ departure_airport := a, arrival_airport := other,
                  departure_time := depTime, arrival_time := depTime + dur } :: extra, ?_⟩
        rw [hout, List.append_assoc]
        rfl

theorem connectGo_new_covered (airports hasDep : List String) :
    ∀ (rest : List String) (acc : List Flight) (r : Rng) (out : List Flight) (r' : Rng),
      connectGo airports hasDep rest acc r = (some out, r') →
      ∀ a ∈ rest, a ∉ hasDep → ∃ fl ∈ out, fl.departure_airport = a := by
  intro rest
  induction rest with
  | nil =>
    intro acc r out r' h a ha
    exact absurd ha (List.not_mem_nil a)
  | cons b rest ih =>
    intro acc r out r' h a ha hanot
    simp only [connectGo] at h
    by_cases hb : b ∈ hasDep
    · rw [if_pos hb] at h
      rcases List.mem_cons.mp ha with rfl | ha'
      · exact absurd hb hanot
      · exact ih acc r out r' h a ha' hanot
    · rw [if_neg hb] at h
      rcases hc : rchoice (airports.filter (fun c => c != b)) r with ⟨o, r1⟩
      rw [hc] at h
      cases o with
      | none => simp at h
      | some other =>
        rcases hd : randint 0 (TIME_HORIZON - MAX_FLIGHT_DURATION) r1 with ⟨depTime, r2⟩
        rw [hd] at h
        rcases he : randint MIN_FLIGHT_DURATION MAX_FLIGHT_DURATION r2 with ⟨dur, r3⟩
        rw [he] at h
        rcases List.mem_cons.mp ha with rfl | ha'
        · obtain ⟨extra, hout⟩ := connectGo_append airports hasDep rest _ r3 out r' h
          refine ⟨{ departure_airport := a, arrival_airport := other,
                    departure_time := depTime, arrival_time := depTime + dur }, ?_, rfl⟩
          rw [hout]
          exact List.mem_append_left _ (List.mem_append_right _ (List.mem_singleton_self _))
        · exact ih _ _ _ _ h a ha' hanot

theorem connectGo_all_new (airports hasDep : List String) :
    ∀ (rest : List String) (acc : List Flight) (r : Rng),
      (∀ a ∈ rest, a ∉ hasDep) →
      (∀ a ∈ rest, airports.filter (fun b => b != a) ≠ []) →
      ∃ extra r', connectGo airports hasDep rest acc r = (some (acc ++ extra), r') ∧
        extra.map (fun fl => fl.departure_airport) = rest := by
  intro rest
  induction rest with
  | nil =>
    intro acc r _ _
    exact ⟨[], r, by simp [connectGo], rfl⟩
  | cons a rest ih =>
    intro acc r hnot hfil
    have ha : a ∉ hasDep := hnot a (List.mem_cons_self a rest)
    obtain ⟨other, r1, hc⟩ := rchoice_some (airports.filter (fun b => b != a)) r
      (hfil a (List.mem_cons_self a rest))
    rcases hd : randint 0 (TIME_HORIZON - MAX_FLIGHT_DURATION) r1 with ⟨depTime, r2⟩
    rcases he : randint MIN_FLIGHT_DURATION MAX_FLIGHT_DURATION r2 with ⟨dur, r3⟩
    obtain ⟨extra, r', hgo, hmap⟩ := ih (acc ++ [Flight.mk a other depTime (depTime + dur)]) r3
      (fun b hb => hnot b (List.mem_cons_of_mem a hb))
      (fun b hb => hfil b (List.mem_cons_of_mem a hb))
    refine ⟨Flight.mk a other depTime (depTime + dur) :: extra, r', ?_, ?_⟩
    · simp only [connectGo, if_neg ha, hc, hd, he, hgo]
      simp [List.append_assoc]
    · simp [hmap]

/-- C9: `repair_connectivity` only appends: for every airports list, flight
list and oracle, a successful repair returns the original flights unchanged
and in order as an initial segment, with every repair-added flight after
all of them (the combined list is not re-sorted). -/
theorem ensure_connectivity_appends_only (airports : List String)
    (flights : List Flight) (r : Rng) (out : List Flight) (r' : Rng)
    (h : ensure_connectivity airports flights r = (some out, r')) :
    ∃ extra, out = flights ++ extra := by
  unfold ensure_connectivity at h
  exact connectGo_append airports (flights.map (fun f => f.departure_airport))
    airports flights r out r' h

/-- C9 (witness): repairing the empty flight list over `["JFK", "LAX"]` with
the all-zeros oracle yields exactly the appended flights after the (empty)
original segment. -/
theorem ensure_connectivity_appends_only_witness :
    ∃ extra, [Flight.mk "JFK" "LAX" 0 60, Flight.mk "LAX" "JFK" 0 60] =
      ([] : List Flight) ++ extra :=
  ensure_connectivity_appends_only ["JFK", "LAX"] [] rng0
    [Flight.mk "JFK" "LAX" 0 60, Flight.mk "LAX" "JFK" 0 60]
    { f := fun _ => 0, pos := 6 } rfl

/-- C3: for every flight-network dataset with at least 2 airports, after
`repair_connectivity` has run (successfully), every airport of the airport
list is the departure airport of at least one flight in the result. -/
theorem ensure_connectivity_covers (airports : List String) (flights : List Flight)
    (r : Rng) (out : List Flight) (r' : Rng) (h2 : 2 ≤ airports.length)
    (h : ensure_connectivity airports flights r = (some out, r')) :
    ∀ a ∈ airports, ∃ fl ∈ out, fl.departure_airport = a := by
  unfold ensure_connectivity at h
  intro a ha
  by_cases hd : a ∈ flights.map (fun f => f.departure_airport)
  · obtain ⟨fl, hfl, hdep⟩ := List.mem_map.mp hd
    obtain ⟨extra, hout⟩ := connectGo_append airports
      (flights.map (fun f => f.departure_airport)) airports flights r out r' h
    exact ⟨fl, by rw [hout]; exact List.mem_append_left _ hfl, hdep⟩
  · exact connectGo_new_covered airports
      (flights.map (fun f => f.departure_airport)) airports flights r out r' h a ha hd

/-- C3 (witness): the connectivity theorem at two airports, no sampled
flights and the all-zeros oracle. -/
theorem ensure_connectivity_covers_witness :
    ∃ fl ∈ [Flight.mk "JFK" "LAX" 0 60, Flight.mk "LAX" "JFK" 0 60],
      fl.departure_airport = "LAX" :=
  ensure_connectivity_covers ["JFK", "LAX"] [] rng0
    [Flight.mk "JFK" "LAX" 0 60, Flight.mk "LAX" "JFK" 0 60]
    { f := fun _ => 0, pos := 6 } (by decide) rfl "LAX" (by decide)

/-- C5: generating a flight network with `num_airports = 5` and
`num_flights = 0` followed by connectivity repair always succeeds and
yields exactly 5 flights, whose departure airports are exactly the 5
airports (in order), none contributed by the zero-flight sampler. -/
theorem crew_scenario_c (r : Rng) :
    ∃ out r', crew_generate_test_file 5 0 r = (some out, r') ∧
      out.airports = generate_airports 5 ∧
      out.flights.length = 5 ∧
      out.flights.map (fun fl => fl.departure_airport) = generate_airports 5 := by
  obtain ⟨extra, r', hgo, hmap⟩ := connectGo_all_new (generate_airports 5) []
    (generate_airports 5) [] r (by simp) (by decide)
  refine ⟨{ airports := generate_airports 5, flights := extra }, r', ?_, rfl, ?_, hmap⟩
  · have hs : generate_flight_schedule (generate_airports 5) 0 r = (some [], r) := by
      show (some (([] : List Flight).mergeSort flightLE), r) = (some [], r)
      rw [List.mergeSort_nil]
    have he : ensure_connectivity (generate_airports 5) [] r = (some ([] ++ extra), r') := hgo
    simp only [crew_generate_test_file, hs, he]
    simp
  · have hlen := congrArg List.length hmap
    have h5 : (generate_airports 5).length = 5 := rfl
    simpa [h5] using hlen

theorem rchoice_fst_mem {α : Type} {xs : List α} {r : Rng} {x : α}
    (h : (rchoice xs r).1 = some x) : x ∈ xs := by
  unfold rchoice Rng.next at h
  simp only at h
  exact List.get?_mem h



theorem sampleFlights_ok (airports : List String) :
    ∀ (n : Nat) (r : Rng) (fs : List Flight) (r' : Rng),
      sampleFlights airports n r = (some fs, r') → ∀ fl ∈ fs, FlightOK fl := by
  intro n
  induction n with
  | zero =>
    intro r fs r' h fl hfl
    simp only [sampleFlights, Prod.mk.injEq, Option.some.injEq] at h
    rw [← h.1] at hfl
    simp at hfl
  | succ n ih =>
    intro r fs r' h fl hfl
    simp only [sampleFlights] at h
    split at h
    · simp at h
    next dep heqdep =>
      split at h
      · simp at h
      next arr heqarr =>
        split at h
        next rest r5 heqrec =>
          simp only [Prod.mk.injEq, Option.some.injEq] at h
          obtain ⟨h1, -⟩ := h
          rw [← h1] at hfl
          rcases List.mem_cons.mp hfl with rfl | hmem
          · dsimp only [FlightOK]
            constructor
            · have hmem2 := rchoice_fst_mem heqarr
              have hne : (arr != dep) = true := (List.mem_filter.mp hmem2).2
              rw [bne_iff_ne] at hne
              exact Ne.symm hne
            · have hbX := randint_bounds 0 (TIME_HORIZON - MAX_FLIGHT_DURATION) (Nat.zero_le _)
                (rchoice (List.filter (fun a => a != dep) airports) (rchoice airports r).2).2
              have hbY := randint_bounds MIN_FLIGHT_DURATION MAX_FLIGHT_DURATION (by decide)
                (randint 0 (TIME_HORIZON - MAX_FLIGHT_DURATION)
                  (rchoice (List.filter (fun a => a != dep) airports) (rchoice airports r).2).2).2
              refine ⟨_, hbY.1, hbY.2, rfl, ?_⟩
              have h1 := hbX.2
              have h2 := hbY.2
              have hc : TIME_HORIZON - MAX_FLIGHT_DURATION + MAX_FLIGHT_DURATION = TIME_HORIZON := by decide
              omega
          · exact ih _ rest r5 heqrec fl hmem
        · simp at h

theorem generate_flight_schedule_ok (airports : List String) (n : Nat) (r : Rng)
    (fs : List Flight) (r' : Rng)
    (h : generate_flight_schedule airports n r = (some fs, r')) :
    ∀ fl ∈ fs, FlightOK fl := by
  unfold generate_flight_schedule at h
  split at h
  next fs0 r2 heq =>
    simp only [Prod.mk.injEq, Option.some.injEq] at h
    intro fl hfl
    rw [← h.1] at hfl
    exact sampleFlights_ok airports n r fs0 r2 heq fl (List.mem_mergeSort.mp hfl)
  next => simp at h

theorem connectGo_ok (airports hasDep : List String) :
    ∀ (rest : List String) (acc : List Flight) (r : Rng) (out : List Flight) (r' : Rng),
      connectGo airports hasDep rest acc r = (some out, r') →
      (∀ fl ∈ acc, FlightOK fl) → ∀ fl ∈ out, FlightOK fl := by
  intro rest
  induction rest with
  | nil =>
    intro acc r out r' h hacc fl hfl
    simp only [connectGo, Prod.mk.injEq, Option.some.injEq] at h
    rw [← h.1] at hfl
    exact hacc fl hfl
  | cons a rest ih =>
    intro acc r out r' h hacc fl hfl
    simp only [connectGo] at h
    by_cases hb : a ∈ hasDep
    · rw [if_pos hb] at h
      exact ih acc r out r' h hacc fl hfl
    · rw [if_neg hb] at h
      rcases hc : rchoice (airports.filter (fun c => c != a)) r with ⟨o, r1⟩
      rw [hc] at h
      cases o with
      | none => simp at h
      | some other =>
        rcases hd : randint 0 (TIME_HORIZON - MAX_FLIGHT_DURATION) r1 with ⟨depTime, r2⟩
        rw [hd] at h
        rcases he : randint MIN_FLIGHT_DURATION MAX_FLIGHT_DURATION r2 with ⟨dur, r3⟩
        rw [he] at h
        refine ih _ r3 out r' h ?_ fl hfl
        intro g hg
        rcases List.mem_append.mp hg with hg' | hg'
        · exact hacc g hg'
        · rw [List.mem_singleton] at hg'
          subst hg'
          dsimp only [FlightOK]
          constructor
          · have hmem := rchoice_mem hc
            have hne : (other != a) = true := (List.mem_filter.mp hmem).2
            rw [bne_iff_ne] at hne
            exact Ne.symm hne
          · have hbd := randint_bounds MIN_FLIGHT_DURATION MAX_FLIGHT_DURATION (by decide) r2
            rw [he] at hbd
            have hb1 := randint_bounds 0 (TIME_HORIZON - MAX_FLIGHT_DURATION) (Nat.zero_le _) r1
            rw [hd] at hb1
            refine ⟨dur, hbd.1, hbd.2, rfl, ?_⟩
            have h1 := hb1.2
            have h2 := hbd.2
            have hcc : TIME_HORIZON - MAX_FLIGHT_DURATION + MAX_FLIGHT_DURATION = TIME_HORIZON := by decide
            omega

/-- C7: every flight in a successfully generated crew-scheduling dataset —
whether produced by the sampler or appended by connectivity repair —
satisfies `arrival_time = departure_time + duration` for some duration in
`[60, 600]` with `departure_time + duration ≤ 10000`, and its origin
differs from its destination. -/
theorem crew_flights_ok (num_airports num_flights : Nat) (r : Rng)
    (out : CrewDataset) (r' : Rng)
    (h : crew_generate_test_file num_airports num_flights r = (some out, r')) :
    ∀ fl ∈ out.flights, FlightOK fl := by
  simp only [crew_generate_test_file] at h
  split at h
  · simp at h
  next flights r1 heq1 =>
    split at h
    · simp at h
    next flights2 r2 heq2 =>
      simp only [Prod.mk.injEq, Option.some.injEq] at h
      obtain ⟨h1, -⟩ := h
      subst h1
      intro fl hfl
      unfold ensure_connectivity at heq2
      exact connectGo_ok _ _ _ _ _ _ _ heq2
        (generate_flight_schedule_ok _ _ _ _ _ heq1) fl hfl

/-- C7 (witness): the flight invariants at `num_airports = 2`,
`num_flights = 0` and the all-zeros oracle. -/
theorem crew_flights_ok_witness :
    FlightOK (Flight.mk "LAX" "JFK" 0 60) :=
  crew_flights_ok 2 0 rng0
    (CrewDataset.mk ["JFK", "LAX"] [Flight.mk "JFK" "LAX" 0 60, Flight.mk "LAX" "JFK" 0 60])
    { f := fun _ => 0, pos := 6 }
    (by
      have hs : generate_flight_schedule (generate_airports 2) 0 rng0 = (some [], rng0) := by
        show (some (([] : List Flight).mergeSort flightLE), rng0) = (some [], rng0)
        rw [List.mergeSort_nil]
      simp only [crew_generate_test_file, hs]
      rfl)
    (Flight.mk "LAX" "JFK" 0 60) (by decide)

theorem get?_some_lt {α : Type} {xs : List α} {i : Nat} {x : α}
    (h : xs.get? i = some x) : i < xs.length := by
  rw [List.get?_eq_getElem?] at h
  by_contra hge
  rw [List.getElem?_eq_none (Nat.le_of_not_lt hge)] at h
  exact Option.noConfusion h

theorem get?_some_getElem {α : Type} {xs : List α} {i : Nat} {x : α}
    (h : xs.get? i = some x) : ∀ hlt : i < xs.length, xs[i] = x := by
  intro hlt
  rw [List.get?_eq_getElem?, List.getElem?_eq_getElem hlt] at h
  exact Option.some.inj h

theorem coveredNutrients_mem (food_items : List Food) (x : String) :
    x ∈ coveredNutrients food_items ↔ ∃ f ∈ food_items, x ∈ f.nutrients := by
  unfold coveredNutrients
  suffices hgen : ∀ acc : List String,
      (x ∈ food_items.foldl (fun acc f => acc ++ f.nutrients) acc ↔
        x ∈ acc ∨ ∃ f ∈ food_items, x ∈ f.nutrients) by
    simpa using hgen []
  intro acc
  induction food_items generalizing acc with
  | nil => simp
  | cons f fs ih =>
    simp only [List.foldl_cons, ih, List.mem_append, List.mem_cons]
    constructor
    · rintro ((h1 | h2) | ⟨g, hg, hxg⟩)
      · exact Or.inl h1
      · exact Or.inr ⟨f, Or.inl rfl, h2⟩
      · exact Or.inr ⟨g, Or.inr hg, hxg⟩
    · rintro (h1 | ⟨g, (rfl | hg), hxg⟩)
      · exact Or.inl (Or.inl h1)
      · exact Or.inl (Or.inr hxg)
      · exact Or.inr ⟨g, hg, hxg⟩

theorem mem_set_nutrient {foods : List Food} {i : Nat} {f : Food} (nb : String)
    (heqf : foods.get? i = some f) {g : Food} (hg : g ∈ foods) {x : String}
    (hx : x ∈ g.nutrients) :
    ∃ f' ∈ foods.set i { f with nutrients := f.nutrients ++ [nb] }, x ∈ f'.nutrients := by
  obtain ⟨j, hj, hgj⟩ := List.mem_iff_getElem.mp hg
  have hlen : j < (foods.set i { f with nutrients := f.nutrients ++ [nb] }).length := by
    rw [List.length_set]; exact hj
  by_cases hij : i = j
  · subst hij
    have hfi : foods[i] = f := get?_some_getElem heqf hj
    refine ⟨{ f with nutrients := f.nutrients ++ [nb] }, ?_, ?_⟩
    · have hset : (foods.set i { f with nutrients := f.nutrients ++ [nb] })[i] =
        { f with nutrients := f.nutrients ++ [nb] } := List.getElem_set_self hlen
      have hmem := List.getElem_mem hlen
      rwa [hset] at hmem
    · refine List.mem_append_left _ ?_
      have hgf : g = f := by rw [← hgj, hfi]
      exact hgf ▸ hx
  · refine ⟨g, ?_, hx⟩
    have hset : (foods.set i { f with nutrients := f.nutrients ++ [nb] })[j] =
        foods[j] := List.getElem_set_ne hij hlen
    have hmem := List.getElem_mem hlen
    rw [hset, hgj] at hmem
    exact hmem

theorem mem_set_self_nutrient {foods : List Food} {i : Nat} {f : Food} (nb : String)
    (heqf : foods.get? i = some f) :
    ∃ f' ∈ foods.set i { f with nutrients := f.nutrients ++ [nb] }, nb ∈ f'.nutrients := by
  have hlt : i < foods.length := get?_some_lt heqf
  have hlen : i < (foods.set i { f with nutrients := f.nutrients ++ [nb] }).length := by
    rw [List.length_set]; exact hlt
  refine ⟨{ f with nutrients := f.nutrients ++ [nb] }, ?_,
    List.mem_append_right _ (List.mem_singleton_self nb)⟩
  have hset : (foods.set i { f with nutrients := f.nutrients ++ [nb] })[i] =
      { f with nutrients := f.nutrients ++ [nb] } := List.getElem_set_self hlen
  have hmem := List.getElem_mem hlen
  rwa [hset] at hmem

theorem coverGo_mono :
    ∀ (uncovered : List String) (foods : List Food) (r : Rng) (out : List Food) (r' : Rng),
      coverGo foods uncovered r = (some out, r') →
      ∀ x : String, (∃ f ∈ foods, x ∈ f.nutrients) → ∃ f ∈ out, x ∈ f.nutrients := by
  intro uncovered
  induction uncovered with
  | nil =>
    intro foods r out r' h x hx
    simp only [coverGo, Prod.mk.injEq, Option.some.injEq] at h
    exact h.1 ▸ hx
  | cons nb rest ih =>
    intro foods r out r' h x hx
    simp only [coverGo] at h
    split at h
    · simp at h
    next fsel heqf =>
      obtain ⟨g, hg, hxg⟩ := hx
      exact ih _ _ _ _ h x (mem_set_nutrient nb heqf hg hxg)

theorem coverGo_covers :
    ∀ (uncovered : List String) (foods : List Food) (r : Rng) (out : List Food) (r' : Rng),
      coverGo foods uncovered r = (some out, r') →
      ∀ x ∈ uncovered, ∃ f ∈ out, x ∈ f.nutrients := by
  intro uncovered
  induction uncovered with
  | nil =>
    intro foods r out r' h x hx
    simp at hx
  | cons nb rest ih =>
    intro foods r out r' h x hx
    simp only [coverGo] at h
    split at h
    · simp at h
    next fsel heqf =>
      rcases List.mem_cons.mp hx with rfl | hx'
      · exact coverGo_mono rest _ _ _ _ h x (mem_set_self_nutrient x heqf)
      · exact ih _ _ _ _ h x hx'

theorem coverGo_bound :
    ∀ (uncovered : List String) (foods : List Food) (r : Rng) (out : List Food) (r' : Rng),
      coverGo foods uncovered r = (some out, r') →
      ∀ f ∈ out, ∀ x ∈ f.nutrients, (∃ g ∈ foods, x ∈ g.nutrients) ∨ x ∈ uncovered := by
  intro uncovered
  induction uncovered with
  | nil =>
    intro foods r out r' h f hf x hx
    simp only [coverGo, Prod.mk.injEq, Option.some.injEq] at h
    exact Or.inl ⟨f, h.1 ▸ hf, hx⟩
  | cons nb rest ih =>
    intro foods r out r' h f hf x hx
    simp only [coverGo] at h
    split at h
    · simp at h
    next fsel heqf =>
      rcases ih _ _ _ _ h f hf x hx with ⟨g, hg, hxg⟩ | hxr
      · rcases List.mem_or_eq_of_mem_set hg with hg' | rfl
        · exact Or.inl ⟨g, hg', hxg⟩
        · rcases List.mem_append.mp hxg with h1 | h2
          · exact Or.inl ⟨fsel, List.get?_mem heqf, h1⟩
          · rw [List.mem_singleton] at h2
            exact Or.inr (h2 ▸ List.mem_cons_self nb rest)
      · exact Or.inr (List.mem_cons_of_mem nb hxr)

/-- C2: for every list of foods whose nutrient lists are drawn from the
universe, after `repair_coverage` has run (successfully), the union of the
foods' nutrient sets equals exactly the universe: every universe nutrient
is in some food's nutrient list, and no food's nutrient list contains an
element outside the universe. -/
theorem ensure_coverage_spec (food_items : List Food) (univ : List String)
    (r : Rng) (out : List Food) (r' : Rng)
    (hsub : ∀ f ∈ food_items, ∀ x ∈ f.nutrients, x ∈ univ)
    (h : ensure_coverage food_items univ r = (some out, r')) :
    (∀ x ∈ univ, ∃ f ∈ out, x ∈ f.nutrients) ∧
    (∀ f ∈ out, ∀ x ∈ f.nutrients, x ∈ univ) := by
  simp only [ensure_coverage] at h
  constructor
  · intro x hx
    by_cases hc : x ∈ coveredNutrients food_items
    · obtain ⟨g, hg, hxg⟩ := (coveredNutrients_mem food_items x).mp hc
      exact coverGo_mono _ _ _ _ _ h x ⟨g, hg, hxg⟩
    · refine coverGo_covers _ _ _ _ _ h x ?_
      rw [List.mem_filter]
      refine ⟨hx, ?_⟩
      simp only [Bool.not_eq_true', ← List.elem_iff] at hc ⊢
      exact Bool.not_eq_true _ ▸ (by simpa using hc)
  · intro f hf x hx
    rcases coverGo_bound _ _ _ _ _ h f hf x hx with ⟨g, hg, hxg⟩ | hxu
    · exact hsub g hg x hxg
    · exact List.mem_of_mem_filter hxu

/-- C2 (witness): coverage repair on one food missing one universe
nutrient, with the all-zeros oracle. -/
theorem ensure_coverage_spec_witness :
    (∀ x ∈ ["N1", "M2"], ∃ f ∈ [Food.mk "A" 2000 ["N1", "M2"]], x ∈ f.nutrients) ∧
    (∀ f ∈ [Food.mk "A" 2000 ["N1", "M2"]], ∀ x ∈ f.nutrients, x ∈ ["N1", "M2"]) :=
  ensure_coverage_spec [Food.mk "A" 2000 ["N1"]] ["N1", "M2"] rng0
    [Food.mk "A" 2000 ["N1", "M2"]] { f := fun _ => 0, pos := 1 }
    (by decide) rfl

theorem rsample_subset {α : Type} :
    ∀ (k : Nat) (xs : List α) (r : Rng), ∀ x ∈ (rsample k xs r).1, x ∈ xs := by
  intro k
  induction k with
  | zero =>
    intro xs r x hx
    simp [rsample] at hx
  | succ k ih =>
    intro xs r x hx
    simp only [rsample] at hx
    split at hx
    · simp at hx
    next y heqy =>
      rcases List.mem_cons.mp hx with rfl | hx'
      · exact List.get?_mem heqy
      · exact List.mem_of_mem_eraseIdx (ih _ _ x hx')

theorem getElem_not_mem_eraseIdx {α : Type} {xs : List α} (hnd : xs.Nodup) {i : Nat}
    (hi : i < xs.length) : xs[i] ∉ xs.eraseIdx i := by
  intro hmem
  obtain ⟨j, hj, hje⟩ := List.mem_iff_getElem.mp hmem
  rw [List.getElem_eraseIdx xs i j hj] at hje
  have hjlen : j + 1 < xs.length ∨ j < xs.length := by
    rw [List.length_eraseIdx] at hj
    split at hj <;> omega
  split at hje
  · next hji =>
    have := hnd.getElem_inj_iff.mp hje
    omega
  · next hji =>
    have := hnd.getElem_inj_iff.mp hje
    omega

theorem rsample_nodup {α : Type} :
    ∀ (k : Nat) (xs : List α) (r : Rng), xs.Nodup → (rsample k xs r).1.Nodup := by
  intro k
  induction k with
  | zero =>
    intro xs r _
    simp [rsample]
  | succ k ih =>
    intro xs r hnd
    simp only [rsample]
    split
    · simp
    next y heqy =>
      dsimp only
      rw [List.nodup_cons]
      constructor
      · intro hy
        have hsub := rsample_subset k (xs.eraseIdx _) _ y hy
        have hlt := get?_some_lt heqy
        have hy2 := get?_some_getElem heqy hlt
        rw [← hy2] at hsub
        exact getElem_not_mem_eraseIdx hnd hlt hsub
      · exact ih _ _ (hnd.eraseIdx _)

theorem coverGo_nodup :
    ∀ (uncovered : List String) (foods : List Food) (r : Rng) (out : List Food) (r' : Rng),
      uncovered.Nodup →
      (∀ f ∈ foods, f.nutrients.Nodup) →
      (∀ x ∈ uncovered, ∀ f ∈ foods, x ∉ f.nutrients) →
      coverGo foods uncovered r = (some out, r') →
      ∀ f ∈ out, f.nutrients.Nodup := by
  intro uncovered
  induction uncovered with
  | nil =>
    intro foods r out r' _ hnd _ h f hf
    simp only [coverGo, Prod.mk.injEq, Option.some.injEq] at h
    exact hnd f (h.1 ▸ hf)
  | cons nb rest ih =>
    intro foods r out r' hu hnd hfresh h f hf
    simp only [coverGo] at h
    split at h
    · simp at h
    next fsel heqf =>
      refine ih _ _ _ _ (List.nodup_cons.mp hu).2 ?_ ?_ h f hf
      · intro g hg
        rcases List.mem_or_eq_of_mem_set hg with hg' | rfl
        · exact hnd g hg'
        · have h1 : fsel.nutrients.Nodup := hnd fsel (List.get?_mem heqf)
          have h2 : nb ∉ fsel.nutrients :=
            hfresh nb (List.mem_cons_self nb rest) fsel (List.get?_mem heqf)
          simp [List.nodup_append, h1, h2]
      · intro x hx g hg
        rcases List.mem_or_eq_of_mem_set hg with hg' | rfl
        · exact hfresh x (List.mem_cons_of_mem nb hx) g hg'
        · intro hxg
          rcases List.mem_append.mp hxg with h1 | h2
          · exact hfresh x (List.mem_cons_of_mem nb hx) fsel (List.get?_mem heqf) h1
          · rw [List.mem_singleton] at h2
            exact (List.nodup_cons.mp hu).1 (h2 ▸ hx)

theorem generate_food_item_nodup (food_id : Nat) (univ : List String)
    (minN maxN : Nat) (r : Rng) (food : Food) (r' : Rng) (hu : univ.Nodup)
    (h : generate_food_item food_id univ minN maxN r = (some food, r')) :
    food.nutrients.Nodup := by
  simp only [generate_food_item] at h
  split at h
  · simp at h
  next t heqt =>
    simp only [Prod.mk.injEq, Option.some.injEq] at h
    obtain ⟨h1, -⟩ := h
    rw [← h1]
    exact rsample_nodup _ _ _ hu

/-- C10: over a duplicate-free universe, every food's nutrient list is
duplicate-free, both as sampled (`random.sample` draws distinct nutrients
without replacement) and after coverage repair (the repair only appends a
nutrient that was absent from every food's list). -/
theorem foods_nodup (univ : List String) (hu : univ.Nodup) :
    (∀ (food_id minN maxN : Nat) (r : Rng) (food : Food) (r' : Rng),
      generate_food_item food_id univ minN maxN r = (some food, r') →
      food.nutrients.Nodup) ∧
    (∀ (food_items : List Food) (r : Rng) (out : List Food) (r' : Rng),
      (∀ f ∈ food_items, f.nutrients.Nodup) →
      ensure_coverage food_items univ r = (some out, r') →
      ∀ f ∈ out, f.nutrients.Nodup) := by
  constructor
  · intro food_id minN maxN r food r' h
    exact generate_food_item_nodup food_id univ minN maxN r food r' hu h
  · intro food_items r out r' hnd h
    simp only [ensure_coverage] at h
    refine coverGo_nodup _ _ _ _ _ (hu.filter _) hnd ?_ h
    intro x hx f hf hmem
    have hxf := (List.mem_filter.mp hx).2
    have hcov : x ∈ coveredNutrients food_items :=
      (coveredNutrients_mem food_items x).mpr ⟨f, hf, hmem⟩
    simp only [Bool.not_eq_true', ← List.elem_iff] at hcov
    simp only [List.contains] at hxf
    rw [hcov] at hxf
    exact Bool.noConfusion hxf

/-- C10 (witness): the no-duplicates theorem at the concrete universe
`["Vitamin1"]`. -/
theorem foods_nodup_witness :
    (∀ (food_id minN maxN : Nat) (r : Rng) (food : Food) (r' : Rng),
      generate_food_item food_id ["Vitamin1"] minN maxN r = (some food, r') →
      food.nutrients.Nodup) ∧
    (∀ (food_items : List Food) (r : Rng) (out : List Food) (r' : Rng),
      (∀ f ∈ food_items, f.nutrients.Nodup) →
      ensure_coverage food_items ["Vitamin1"] r = (some out, r') →
      ∀ f ∈ out, f.nutrients.Nodup) :=
  foods_nodup ["Vitamin1"] (by decide)

theorem unitRand_bounds (n : Nat) : 0 ≤ unitRand n ∧ unitRand n ≤ 1 := by
  unfold unitRand
  constructor
  · positivity
  · rw [div_le_one (by norm_num)]
    have h : (n % 1001) ≤ 1000 := Nat.lt_succ_iff.mp (Nat.mod_lt _ (by norm_num))
    exact_mod_cast h

/-- C8: for every non-empty food list and non-empty universe,
`compute_max_calories` returns `max(candidate, floor_estimate)` where
`candidate = total × r` for the drawn fraction `r ∈ [0.4, 0.6]` and
`floor_estimate = (|universe| / 3 + 1) × (total / |foods|)`; in particular
the returned budget is at least that feasibility floor. -/
theorem calculate_max_calories_spec (food_items : List Food) (univ : List String)
    (r : Rng) (hf : food_items ≠ []) (hu : univ ≠ []) :
    ∃ fraction v : ℚ, 2/5 ≤ fraction ∧ fraction ≤ 3/5 ∧
      (calculate_max_calories food_items univ r).1 = some v ∧
      v = max (totalCalories food_items * fraction)
        (((univ.length / 3 + 1 : Nat) : ℚ) *
          (totalCalories food_items / (food_items.length : ℚ))) ∧
      ((univ.length / 3 + 1 : Nat) : ℚ) *
          (totalCalories food_items / (food_items.length : ℚ)) ≤ v := by
  have hlen : ¬(food_items.length = 0) := fun hh => hf (List.length_eq_zero.mp hh)
  have hub := unitRand_bounds (r.f r.pos)
  refine ⟨2/5 + (3/5 - 2/5) * unitRand (r.f r.pos),
    max (totalCalories food_items * (2/5 + (3/5 - 2/5) * unitRand (r.f r.pos)))
      (((univ.length / 3 + 1 : Nat) : ℚ) *
        (totalCalories food_items / (food_items.length : ℚ))),
    ?_, ?_, ?_, rfl, le_max_right _ _⟩
  · nlinarith [hub.1]
  · nlinarith [hub.2]
  · simp only [calculate_max_calories, runiform, Rng.next, if_neg hlen]

/-- C8 (witness): the budget theorem at one food, one nutrient and the
all-zeros oracle. -/
theorem calculate_max_calories_spec_witness :
    ∃ fraction v : ℚ, 2/5 ≤ fraction ∧ fraction ≤ 3/5 ∧
      (calculate_max_calories [Food.mk "Apple_1" 2000 ["Vitamin1"]] ["Vitamin1"] rng0).1 = some v ∧
      v = max (totalCalories [Food.mk "Apple_1" 2000 ["Vitamin1"]] * fraction)
        ((((["Vitamin1"] : List String).length / 3 + 1 : Nat) : ℚ) *
          (totalCalories [Food.mk "Apple_1" 2000 ["Vitamin1"]] /
            (([Food.mk "Apple_1" 2000 ["Vitamin1"]] : List Food).length : ℚ))) ∧
      (((["Vitamin1"] : List String).length / 3 + 1 : Nat) : ℚ) *
          (totalCalories [Food.mk "Apple_1" 2000 ["Vitamin1"]] /
            (([Food.mk "Apple_1" 2000 ["Vitamin1"]] : List Food).length : ℚ)) ≤ v :=
  calculate_max_calories_spec [Food.mk "Apple_1" 2000 ["Vitamin1"]] ["Vitamin1"] rng0
    (by decide) (by decide)
